import Mathlib

/-!
Verification development for the QuackOSM feature-reconstruction pipeline.

The repository snapshot ships its documentation (README, CHANGELOG, example
notebooks, build configuration) but not the Python package sources, so the
components below are shallow embeddings reconstructed from the specification
document and from the behaviour documented in the repository files.  Every
definition whose implementation counterpart is missing carries a doc comment
starting with `Modelled from the spec:`.

Contents:
* tag-filter predicate and its compile-time conflict check (C1, C4);
* way-stage geometry classification with the polygon tag policy (C3);
* geometry repair and the OGC validity invariant (C2);
* orientation-agnostic geometry fingerprint (C5);
* group scheduler with adaptive down-scaling (C6);
* `explode_tags` option resolution (C7);
* cache file naming (C8);
* CLI exit codes (C9);
* greedy extract covering with the IoU threshold (C10).
-/

namespace Quackosm

/-! ### Tag filter (component C1 of the spec architecture) -/

namespace TagsFilter

/-- Modelled from the spec: a tag filter value specification is a tagged
variant `{Present, Absent, Equals(s), AnyOf(list), Wildcard(pattern)}`
(spec §4.1 and §9); the Python filter-compilation module is absent from the
snapshot.  `present` is the JSON value `True`, `absent` is `False`. -/
inductive ValueSpec where
  | present
  | absent
  | equalsValue (v : String)
  | anyOf (vs : List String)
  | wildcardValue (pat : String)
  deriving DecidableEq

/-- Splits a glob pattern at every star character.  A pattern without a star
yields a single chunk, so matching degenerates to exact equality. -/
def splitStar : List Char → List (List Char)
  | [] => [[]]
  | '*' :: cs => [] :: splitStar cs
  | c :: cs =>
    match splitStar cs with
    | [] => [[c]]
    | h :: t => (c :: h) :: t

/-- Boolean test that the first list is an initial segment of the second. -/
def leadsWith : List Char → List Char → Bool
  | [], _ => true
  | _ :: _, [] => false
  | c :: cs, d :: ds => c == d && leadsWith cs ds

/-- Finds the leftmost occurrence of `ch` inside `s` and returns the residue
after that occurrence. -/
def findChunk (ch : List Char) : List Char → Option (List Char)
  | [] => if leadsWith ch [] then some [] else none
  | s@(_ :: s') => if leadsWith ch s then some (s.drop ch.length) else findChunk ch s'

/-- Boolean test that the first list is a final segment of the second. -/
def endsWithChunk (ch s : List Char) : Bool := leadsWith ch.reverse s.reverse

/-- Matches the non-leading chunks of a glob pattern against the residue of
the subject: middle chunks are located greedily left to right and the final
chunk must close the subject. -/
def matchMiddle : List (List Char) → List Char → Bool
  | [], _ => true
  | [clast], s => endsWithChunk clast s
  | c :: rest, s =>
    match findChunk c s with
    | none => false
    | some s' => matchMiddle rest s'

/-- Modelled from the spec: wildcard match of a pattern (where `*` may appear
at either end or in the middle, spec §4.1) against a concrete string; without
a star the match is exact equality. -/
def globMatch (pat s : List Char) : Bool :=
  match splitStar pat with
  | [] => s.isEmpty
  | [c] => s == c
  | c0 :: rest => leadsWith c0 s && matchMiddle rest (s.drop c0.length)

/-- String version of `globMatch`. -/
def wildMatch (pat s : String) : Bool := globMatch pat.toList s.toList

/-- Whether a (possibly wildcard) filter key matches a concrete OSM tag key. -/
def keyMatches (patKey key : String) : Bool := wildMatch patKey key

/-- A positive spec demands presence of a matching tag, a negative spec
(`absent`, the JSON `False`) demands absence of the key. -/
def specIsPositive : ValueSpec → Bool
  | .absent => false
  | _ => true

/-- Whether a value specification accepts a concrete tag value. -/
def specMatchesValue : ValueSpec → String → Bool
  | .present, _ => true
  | .absent, _ => false
  | .equalsValue v, w => v == w
  | .anyOf vs, w => vs.contains w
  | .wildcardValue p, w => wildMatch p w

/-- A feature tag map: association list from tag key to value. -/
abbrev TagsMap := List (String × String)

/-- A flat OSM tags filter: tag-key pattern paired with a value spec. -/
abbrev OsmTagsFilter := List (String × ValueSpec)

/-- The positive entries of a filter (spec set `P`). -/
def positiveSpecs (f : OsmTagsFilter) : OsmTagsFilter :=
  f.filter fun ks => specIsPositive ks.2

/-- The negative entries of a filter (spec set `N`). -/
def negativeSpecs (f : OsmTagsFilter) : OsmTagsFilter :=
  f.filter fun ks => !(specIsPositive ks.2)

/-- Modelled from the spec: the compiled tag predicate (spec §4.1, illustrated
in the `osm_tags_filter` notebook as
`(positive disjunction) and (negative conjunction)`): a feature passes iff
either no positive spec exists or one positive spec matches some tag, and no
tag key matched by a negative spec is present.  Wildcard keys are compared
directly against the feature's concrete keys, which coincides with expanding
the wildcard over the observed key universe. -/
def tagsFilterMatches (f : OsmTagsFilter) (tags : TagsMap) : Bool :=
  let pos := positiveSpecs f
  (pos.isEmpty ||
      pos.any fun ks => tags.any fun kv =>
        keyMatches ks.1 kv.1 && specMatchesValue ks.2 kv.2) &&
    ((negativeSpecs f).all fun ks => tags.all fun kv => !(keyMatches ks.1 kv.1))

/-- A grouped filter labels inner filters with group names (spec §4.1). -/
abbrev GroupedOsmTagsFilter := List (String × OsmTagsFilter)

/-- Concrete (star-free) keys appearing in a grouped filter; wildcard
expansion may always produce these in addition to the scanned universe. -/
def filterConcreteKeys (gf : GroupedOsmTagsFilter) : List String :=
  ((gf.map fun g => g.2.map fun ks => ks.1).flatten).filter fun k =>
    !(k.toList.contains '*')

/-- The concrete key universe a filter is expanded against: the scanned key
universe of the input plus the filter's own concrete keys. -/
def expansionUniverse (keyUniverse : List String) (gf : GroupedOsmTagsFilter) : List String :=
  keyUniverse ++ filterConcreteKeys gf

/-- Modelled from the spec: a filter is invalid iff some concrete key is
matched by both a positive and a negative spec after wildcard expansion,
cross-group included (spec §4.1, `osm_tags_filter` notebook section
`Invalid filters`). -/
def hasFilterConflict (keyUniverse : List String) (gf : GroupedOsmTagsFilter) : Bool :=
  (expansionUniverse keyUniverse gf).any fun key =>
    (gf.any fun g => g.2.any fun ks => specIsPositive ks.2 && keyMatches ks.1 key) &&
      (gf.any fun g => g.2.any fun ks => !(specIsPositive ks.2) && keyMatches ks.1 key)

/-- Error raised during filter compilation. -/
inductive FilterError where
  | filterConflict
  deriving DecidableEq

/-- A compiled grouped tag filter. -/
structure CompiledTagsFilter where
  groups : GroupedOsmTagsFilter
  deriving DecidableEq

/-- Modelled from the spec: compiling a filter checks for positive/negative
conflicts and fails with `FilterConflict` before anything else happens. -/
def compileTagsFilter (keyUniverse : List String) (gf : GroupedOsmTagsFilter) :
    Except FilterError CompiledTagsFilter :=
  if hasFilterConflict keyUniverse gf then .error .filterConflict else .ok ⟨gf⟩

/-- Modelled from the spec: a conversion first compiles the tag filter and
only then looks at features; a conflict aborts before any feature is
processed. -/
def convertFeatures (keyUniverse : List String) (gf : GroupedOsmTagsFilter)
    (features : List TagsMap) : Except FilterError (List TagsMap) :=
  match compileTagsFilter keyUniverse gf with
  | .error e => .error e
  | .ok c => .ok (features.filter fun t => c.groups.any fun g => tagsFilterMatches g.2 t)

end TagsFilter

end Quackosm

namespace Quackosm

open TagsFilter

/-- C1: the tag predicate accepts a feature tag map `T` iff
(the positive spec set `P` is empty OR some positive entry matches a key
present in `T`, with wildcard expansion, and its spec matches that key's
value) AND (every key with a `FALSE` spec is absent from `T`, with wildcard
expansion). -/
theorem tag_predicate_semantics (f : OsmTagsFilter) (tags : TagsMap) :
    tagsFilterMatches f tags = true ↔
      ((positiveSpecs f = [] ∨
          ∃ ks ∈ positiveSpecs f, ∃ kv ∈ tags,
            keyMatches ks.1 kv.1 = true ∧ specMatchesValue ks.2 kv.2 = true) ∧
        ∀ ks ∈ negativeSpecs f, ∀ kv ∈ tags, keyMatches ks.1 kv.1 = false) := by
  simp only [tagsFilterMatches, Bool.and_eq_true, Bool.or_eq_true, List.any_eq_true,
    List.all_eq_true, List.isEmpty_iff, Bool.not_eq_true']

/-- First invalid filter from the notebook: a grouped filter whose groups
give `amenity` both a positive and a negative spec. -/
def conflictingGroupedFilter : GroupedOsmTagsFilter :=
  [("group_1", [("amenity", .equalsValue "bench")]),
    ("group_2", [("amenity", .absent)])]

/-- Second invalid filter from the notebook: `name:en` is required while the
wildcard `name:*` is forbidden; after expansion both match `name:en`. -/
def conflictingWildcardFilter : GroupedOsmTagsFilter :=
  [("all", [("name:en", .present), ("name:*", .absent)])]

/-- C4: compiling a filter fails with `FilterConflict` exactly when some
concrete key of the expansion keyUniverse is matched by both a positive and a
negative spec (cross-group included); in particular the two notebook
examples `{"group_1": {"amenity": "bench"}, "group_2": {"amenity": false}}`
and `{"name:en": true, "name:*": false}` are rejected at compile time,
before any feature is processed. -/
theorem filter_conflict_rejected :
    (∀ (keyUniverse : List String) (gf : GroupedOsmTagsFilter),
        compileTagsFilter keyUniverse gf = .error .filterConflict ↔
          ∃ key ∈ expansionUniverse keyUniverse gf,
            (∃ g ∈ gf, ∃ ks ∈ g.2,
              specIsPositive ks.2 = true ∧ keyMatches ks.1 key = true) ∧
              ∃ g ∈ gf, ∃ ks ∈ g.2,
                specIsPositive ks.2 = false ∧ keyMatches ks.1 key = true) ∧
      compileTagsFilter [] conflictingGroupedFilter = .error .filterConflict ∧
      compileTagsFilter [] conflictingWildcardFilter = .error .filterConflict ∧
      (∀ features, convertFeatures [] conflictingGroupedFilter features =
        .error .filterConflict) ∧
      ∀ features, convertFeatures [] conflictingWildcardFilter features =
        .error .filterConflict := by
  have hiff : ∀ (keyUniverse : List String) (gf : GroupedOsmTagsFilter),
      compileTagsFilter keyUniverse gf = .error .filterConflict ↔
        ∃ key ∈ expansionUniverse keyUniverse gf,
          (∃ g ∈ gf, ∃ ks ∈ g.2,
            specIsPositive ks.2 = true ∧ keyMatches ks.1 key = true) ∧
            ∃ g ∈ gf, ∃ ks ∈ g.2,
              specIsPositive ks.2 = false ∧ keyMatches ks.1 key = true := by
    intro keyUniverse gf
    unfold compileTagsFilter
    by_cases h : hasFilterConflict keyUniverse gf = true
    · simp only [h, if_true, true_iff]
      have := h
      simp only [hasFilterConflict, List.any_eq_true, Bool.and_eq_true,
        Bool.not_eq_true'] at this
      obtain ⟨key, hkey, ⟨g1, hg1, ks1, hks1, h1⟩, g2, hg2, ks2, hks2, h2⟩ := this
      exact ⟨key, hkey, ⟨g1, hg1, ks1, hks1, h1.1, h1.2⟩, g2, hg2, ks2, hks2, h2.1, h2.2⟩
    · simp only [h, if_false, reduceCtorEq, false_iff]
      intro hc
      apply h
      simp only [hasFilterConflict, List.any_eq_true, Bool.and_eq_true,
        Bool.not_eq_true']
      obtain ⟨key, hkey, ⟨g1, hg1, ks1, hks1, h1, h1'⟩, g2, hg2, ks2, hks2, h2, h2'⟩ := hc
      exact ⟨key, hkey, ⟨g1, hg1, ks1, hks1, h1, h1'⟩, g2, hg2, ks2, hks2, h2, h2'⟩
  have hb1 : hasFilterConflict [] conflictingGroupedFilter = true := by decide
  have hb2 : hasFilterConflict [] conflictingWildcardFilter = true := by decide
  have hc1 : compileTagsFilter [] conflictingGroupedFilter = .error .filterConflict := by
    simp [compileTagsFilter, hb1]
  have hc2 : compileTagsFilter [] conflictingWildcardFilter = .error .filterConflict := by
    simp [compileTagsFilter, hb2]
  refine ⟨hiff, hc1, hc2, ?_, ?_⟩
  · intro features
    simp [convertFeatures, hc1]
  · intro features
    simp [convertFeatures, hc2]

/-! ### Conversion option resolution: `explode_tags` -/

/-- Resolution of the `explode_tags` option as documented by the CLI help in
the README (lines 527-529): when the flag is unset (`None`), it is `true`
exactly when a tags filter is applied without `keep_all_tags`; otherwise the
explicit value wins. -/
def effectiveExplodeTags (explode : Option Bool) (tagsFilterPresent keepAllTags : Bool) :
    Bool :=
  match explode with
  | some b => b
  | none => tagsFilterPresent && !keepAllTags

/-- C7 counterexample: with a tags filter present and `keep_all_tags = true`,
the unset `explode_tags` option resolves to `false` (compact tags), so its
effective value is not independent of `keep_all_tags`. -/
theorem explode_tags_depends_on_keep_all_tags :
    effectiveExplodeTags none true true = false ∧
      ¬ (∀ keepAllTags : Bool, effectiveExplodeTags none true keepAllTags = true) := by
  refine ⟨rfl, fun h => ?_⟩
  have := h true
  simp [effectiveExplodeTags] at this

/-- C7 (amended): when `explode_tags` is unset, its effective value is `true`
iff a tags filter is present AND `keep_all_tags` is false, per the CLI help
and the parameters-logic table of the `osm_tags_filter` notebook. -/
theorem explode_tags_default_resolution (tagsFilterPresent keepAllTags : Bool) :
    effectiveExplodeTags none tagsFilterPresent keepAllTags = true ↔
      tagsFilterPresent = true ∧ keepAllTags = false := by
  cases tagsFilterPresent <;> cases keepAllTags <;> simp [effectiveExplodeTags]

/-! ### CLI exit codes -/

/-- Outcomes of a CLI invocation, per the error taxonomy of the docs. -/
inductive CliOutcome where
  | success
  | validationError
  | extractZeroMatches
  | extractMultipleMatches
  | uncoveredGeometry
  deriving DecidableEq

/-- Modelled from the docs (`command_line_interface` notebook): QuackOSM
raises an error with system exit code 1 if multiple or zero extracts were
matched by the query; errors uniformly exit with code 1 and success with 0.
The `cli.py` module itself is absent from the snapshot. -/
def cliExitCode : CliOutcome → Nat
  | .success => 0
  | .validationError => 1
  | .extractZeroMatches => 1
  | .extractMultipleMatches => 1
  | .uncoveredGeometry => 1

/-- C9 counterexample: a text query matching zero extracts exits with code 1,
not with the distinct code 2 stated by the claim. -/
theorem extract_not_found_exit_code_is_one :
    cliExitCode .extractZeroMatches = 1 ∧ cliExitCode .extractZeroMatches ≠ 2 := by
  exact ⟨rfl, by decide⟩

/-- C9 (amended): extract-matching failures exit with code 1, the same code
as validation errors; success exits with 0. No distinct exit codes 2 and 3
exist. -/
theorem cli_exit_codes :
    cliExitCode .success = 0 ∧
      cliExitCode .validationError = 1 ∧
      cliExitCode .extractZeroMatches = 1 ∧
      cliExitCode .extractMultipleMatches = 1 ∧
      cliExitCode .uncoveredGeometry = 1 ∧
      ∀ o : CliOutcome, cliExitCode o ≤ 1 := by
  refine ⟨rfl, rfl, rfl, rfl, rfl, fun o => ?_⟩
  cases o <;> decide

/-! ### Group scheduler (component C6 of the spec architecture) -/

/-- Rows-per-group value chosen from the available system memory in MB, per
the README memory-usage table: below 8 GB → 100 000, 8-16 GB → 500 000,
16-24 GB → 1 000 000, above 24 GB → 5 000 000. -/
def rowsPerGroup (availableMemoryMB : Nat) : Nat :=
  if availableMemoryMB < 8 * 1024 then 100000
  else if availableMemoryMB < 16 * 1024 then 500000
  else if availableMemoryMB < 24 * 1024 then 1000000
  else 5000000

/-- Error raised when the scheduler cannot shrink groups any further. -/
inductive SchedulerError where
  | outOfMemory
  deriving DecidableEq

/-- One adaptive down-scaling step: halve the group size, clamped at the
floor of 10 000 rows. -/
def halveClamped (g : Nat) : Nat := max (g / 2) 10000

/-- Modelled from the spec: a grouped batch is retried with a halved
rows-per-group value whenever the query engine reports an out-of-memory
condition, down to the floor of 10 000 rows, after which the stage fails
with `OutOfMemory` (spec §4.6; CHANGELOG 0.4.5 records the automatic
downscaling).  `batchSucceeds g` abstracts whether the engine finishes the
batch at group size `g`. -/
def runGroupedBatch (batchSucceeds : Nat → Bool) (g : Nat) : Except SchedulerError Nat :=
  if batchSucceeds g then .ok g
  else if g ≤ 10000 then .error .outOfMemory
  else runGroupedBatch batchSucceeds (halveClamped g)
termination_by g
decreasing_by
  simp only [halveClamped]
  omega

/-- C6: the scheduler picks the group size solely from available memory
following the README table, and on out-of-memory conditions halves the
group size with floor 10 000: a successful run returns a value that is an
iterated clamped halving of the initial size, never larger than it, on
which the batch succeeds; a failed run implies the batch still failed at
the 10 000 floor. -/
theorem group_scheduler_sizing_and_downscaling :
    (∀ m, m < 8 * 1024 → rowsPerGroup m = 100000) ∧
      (∀ m, 8 * 1024 ≤ m → m < 16 * 1024 → rowsPerGroup m = 500000) ∧
      (∀ m, 16 * 1024 ≤ m → m < 24 * 1024 → rowsPerGroup m = 1000000) ∧
      (∀ m, 24 * 1024 < m → rowsPerGroup m = 5000000) ∧
      (∀ ok g g', runGroupedBatch ok g = .ok g' →
        g' ≤ g ∧ ok g' = true ∧ ∃ k, g' = halveClamped^[k] g) ∧
      ∀ ok g, 10000 ≤ g → runGroupedBatch ok g = .error .outOfMemory →
        ok 10000 = false := by
  refine ⟨?_, ?_, ?_, ?_, ?_, ?_⟩
  · intro m hm; simp [rowsPerGroup, hm]
  · intro m hm hm'
    simp only [rowsPerGroup]
    rw [if_neg (by omega), if_pos (by omega)]
  · intro m hm hm'
    simp only [rowsPerGroup]
    rw [if_neg (by omega), if_neg (by omega), if_pos (by omega)]
  · intro m hm
    simp only [rowsPerGroup]
    rw [if_neg (by omega), if_neg (by omega), if_neg (by omega)]
  · intro ok g
    induction g using Nat.strong_induction_on with
    | _ g ih =>
      intro g' h
      rw [runGroupedBatch] at h
      by_cases hok : ok g = true
      · simp only [hok, if_true] at h
        obtain rfl : g = g' := by cases h; rfl
        exact ⟨le_refl g, hok, 0, rfl⟩
      · simp only [hok, if_false, Bool.false_eq_true] at h
        by_cases hfl : g ≤ 10000
        · simp [hfl] at h
        · simp only [hfl, if_false] at h
          have hlt : halveClamped g < g := by simp only [halveClamped]; omega
          obtain ⟨h1, h2, k, h3⟩ := ih (halveClamped g) hlt g' h
          exact ⟨le_trans h1 (le_of_lt hlt), h2, k + 1,
            by rw [Function.iterate_succ_apply, h3]⟩
  · intro ok g
    induction g using Nat.strong_induction_on with
    | _ g ih =>
      intro hge h
      rw [runGroupedBatch] at h
      by_cases hok : ok g = true
      · simp [hok] at h
      · simp only [hok, if_false, Bool.false_eq_true] at h
        by_cases hfl : g ≤ 10000
        · have : g = 10000 := le_antisymm hfl hge
          rw [← this]
          exact Bool.not_eq_true _ ▸ (by simpa using hok)
        · simp only [hfl, if_false] at h
          have hlt : halveClamped g < g := by simp only [halveClamped]; omega
          exact ih (halveClamped g) hlt (le_max_right _ _) h

/-- Witness for C6: concrete memory sizes hit each row of the table, and a
batch that only succeeds at 15 000 rows or fewer, started at 40 000 rows,
finishes at the floor value 10 000 after two clamped halvings. -/
theorem group_scheduler_witness :
    rowsPerGroup 4096 = 100000 ∧
      rowsPerGroup 12288 = 500000 ∧
      rowsPerGroup 20480 = 1000000 ∧
      rowsPerGroup 32768 = 5000000 ∧
      (10000 : Nat) ≤ 40000 ∧
      (fun n : Nat => decide (n ≤ 15000)) 10000 = true ∧
      (∃ k, (10000 : Nat) = halveClamped^[k] 40000) ∧
      (fun _ : Nat => false) 10000 = false := by
  obtain ⟨h1, h2, h3, h4, hok, herr⟩ := group_scheduler_sizing_and_downscaling
  have hrun : runGroupedBatch (fun n : Nat => decide (n ≤ 15000)) 40000 = .ok 10000 := by
    rw [runGroupedBatch]
    norm_num [halveClamped]
    rw [runGroupedBatch]
    norm_num [halveClamped]
    rw [runGroupedBatch]
    norm_num
  have hrun2 : runGroupedBatch (fun _ : Nat => false) 12000 = .error .outOfMemory := by
    rw [runGroupedBatch]
    norm_num [halveClamped]
    rw [runGroupedBatch]
    norm_num
  obtain ⟨hle, hokv, hiter⟩ := hok _ 40000 10000 hrun
  have hfail := herr _ 12000 (by norm_num) hrun2
  exact ⟨h1 4096 (by norm_num), h2 12288 (by norm_num) (by norm_num),
    h3 20480 (by norm_num) (by norm_num), h4 32768 (by norm_num),
    by norm_num, hokv, hiter, hfail⟩

/-! ### Shared planar geometry primitives

Coordinates are modelled as integers (a fixed-precision rescaling of the
WGS84 doubles); all geometric predicates used below are exact integer
computations. -/

/-- A planar point. -/
abbrev Pt := ℤ × ℤ

/-- Collapses runs of consecutive duplicate vertices to a single vertex
(spec §4.4 step 3 and §4.7 step 1). -/
def removeConsecutiveDuplicates : List Pt → List Pt
  | [] => []
  | [p] => [p]
  | p :: q :: t =>
    if p = q then removeConsecutiveDuplicates (q :: t)
    else p :: removeConsecutiveDuplicates (q :: t)

/-- Cross product term of the shoelace formula. -/
def cross (p q : Pt) : ℤ := p.1 * q.2 - q.1 * p.2

/-- Twice the signed area of the closed polyline described by the vertex
list (shoelace formula over consecutive vertex pairs). -/
def signedArea2 : List Pt → ℤ
  | [] => 0
  | [_] => 0
  | p :: q :: t => cross p q + signedArea2 (q :: t)

/-- Boolean closure test: first vertex equals last vertex. -/
def isClosedRing (l : List Pt) : Bool := decide (l.head? = l.getLast?)

/-- Reorients a ring counterclockwise (positive signed area) by reversing
it when its signed area is negative. -/
def orientCCW (r : List Pt) : List Pt := if signedArea2 r < 0 then r.reverse else r

/-- Reorients a ring clockwise (negative signed area) by reversing it when
its signed area is positive; used for polygon holes. -/
def orientCW (r : List Pt) : List Pt := if 0 < signedArea2 r then r.reverse else r

/-! ### Way stage geometry classification (component C4 of the spec
architecture) -/

/-- One entry of the way polygon configuration: an area-yes tag key with
optional include and exclude value lists (spec §4.4). -/
abbrev WayPolygonEntry := String × Option (List String) × Option (List String)

/-- Modelled from the spec: the baseline whitelist of area-yes keys given as
examples in spec §4.4 (`building`, `landuse`, `leisure`, `amenity`,
`natural`, `water`, `place`), none with include/exclude lists; the shipped
`osm_way_polygon_features.json` config document is absent from the
snapshot.  `highway` is not in the list. -/
def defaultWayPolygonConfig : List WayPolygonEntry :=
  [("building", none, none), ("landuse", none, none), ("leisure", none, none),
    ("amenity", none, none), ("natural", none, none), ("water", none, none),
    ("place", none, none)]

/-- Looks up a tag value by key in a feature tag map. -/
def lookupTag (tags : TagsFilter.TagsMap) (k : String) : Option String :=
  (tags.find? fun kv => kv.1 == k).map fun kv => kv.2

/-- Modelled from the spec: the way polygon classification policy (spec
§4.4): the explicit `area=no` / `area=yes` overrides take precedence, and
otherwise the tags must hit a whitelisted area key whose value passes the
optional include list and is absent from the optional exclude list.  The
policy is the sole arbiter; geometry shape is not consulted. -/
def wayPolygonPolicyAccepts (cfg : List WayPolygonEntry)
    (tags : TagsFilter.TagsMap) : Bool :=
  match lookupTag tags "area" with
  | some "no" => false
  | some "yes" => true
  | _ =>
    cfg.any fun e =>
      match lookupTag tags e.1 with
      | none => false
      | some v =>
        (match e.2.1 with | none => true | some vs => vs.contains v) &&
          (match e.2.2 with | none => true | some vs => !(vs.contains v))

/-- A way record: ordered node refs plus tags. -/
structure WayRecord where
  refs : List Nat
  tags : TagsFilter.TagsMap
  deriving DecidableEq

/-- Joins every node ref of a way against the node coordinate table;
a single unresolved ref drops the whole way (spec §4.4 step 2). -/
def resolveRefs (coords : List (Nat × Pt)) (refs : List Nat) : Option (List Pt) :=
  refs.mapM fun r => (coords.find? fun c => c.1 == r).map fun c => c.2

/-- Modelled from the spec: way assembly steps 2-3 of spec §4.4 — resolve
refs to coordinates, collapse consecutive duplicate vertices and reject
ways left with fewer than 2 vertices. -/
def wayVertices (coords : List (Nat × Pt)) (refs : List Nat) : Option (List Pt) :=
  match resolveRefs coords refs with
  | none => none
  | some vs =>
    let vs' := removeConsecutiveDuplicates vs
    if vs'.length < 2 then none else some vs'

/-- Geometry emitted for a way. -/
inductive WayGeometry where
  | linestring (points : List Pt)
  | polygon (ring : List Pt)
  deriving DecidableEq

/-- Whether an emitted way geometry is a polygon. -/
def isPolygonGeometry : WayGeometry → Bool
  | .polygon _ => true
  | .linestring _ => false

/-- Modelled from the spec: way assembly step 4 of spec §4.4 — build a
polygon (oriented counterclockwise) iff the assembled vertex sequence is
closed, the polygon policy accepts the tags and at least 4 vertices remain;
otherwise build a linestring. -/
def buildWayGeometry (cfg : List WayPolygonEntry) (coords : List (Nat × Pt))
    (w : WayRecord) : Option WayGeometry :=
  match wayVertices coords w.refs with
  | none => none
  | some vs =>
    if isClosedRing vs && wayPolygonPolicyAccepts cfg w.tags && decide (4 ≤ vs.length)
    then some (.polygon (orientCCW vs))
    else some (.linestring vs)

/-- C3 counterexample: the way with ref sequence `[1,2,2,1]` is closed with
length 4 and is tagged `building=yes` (accepted by the polygon policy), yet
it is emitted as a LINESTRING: after the duplicate ref is collapsed only 3
vertices remain, below the 4-vertex minimum of spec §4.4 step 4. -/
theorem closed_way_not_always_polygon :
    ([1, 2, 2, 1] : List Nat).head? = ([1, 2, 2, 1] : List Nat).getLast? ∧
      4 ≤ ([1, 2, 2, 1] : List Nat).length ∧
      wayPolygonPolicyAccepts defaultWayPolygonConfig [("building", "yes")] = true ∧
      buildWayGeometry defaultWayPolygonConfig
          [(1, ((0 : ℤ), (0 : ℤ))), (2, ((1 : ℤ), (0 : ℤ)))]
          ⟨[1, 2, 2, 1], [("building", "yes")]⟩ =
        some (.linestring [((0 : ℤ), (0 : ℤ)), ((1 : ℤ), (0 : ℤ)), ((0 : ℤ), (0 : ℤ))]) ∧
      isPolygonGeometry
          (.linestring [((0 : ℤ), (0 : ℤ)), ((1 : ℤ), (0 : ℤ)), ((0 : ℤ), (0 : ℤ))]) =
        false := by
  refine ⟨rfl, by decide, by decide, by decide, rfl⟩

/-- C3 (amended): for every way that survives ref resolution and duplicate
collapse, the emitted geometry is a polygon iff the surviving vertex
sequence is closed, has at least 4 vertices, and the tag-based polygon
policy accepts the way's tags — and a linestring otherwise, never both.  In
particular a closed unit-square way tagged `building=yes` yields a POLYGON
and the same ring tagged `highway=residential` yields a LINESTRING. -/
theorem way_polygon_classification (cfg : List WayPolygonEntry)
    (coords : List (Nat × Pt)) (w : WayRecord) (vs : List Pt)
    (h : wayVertices coords w.refs = some vs) :
    ((isClosedRing vs && wayPolygonPolicyAccepts cfg w.tags && decide (4 ≤ vs.length)) =
        true → buildWayGeometry cfg coords w = some (.polygon (orientCCW vs))) ∧
      ((isClosedRing vs && wayPolygonPolicyAccepts cfg w.tags && decide (4 ≤ vs.length)) =
        false → buildWayGeometry cfg coords w = some (.linestring vs)) ∧
      ∀ g, buildWayGeometry cfg coords w = some g →
        (isPolygonGeometry g = true ↔
          (isClosedRing vs = true ∧ wayPolygonPolicyAccepts cfg w.tags = true ∧
            4 ≤ vs.length)) := by
  unfold buildWayGeometry
  rw [h]
  dsimp only
  by_cases hc :
      (isClosedRing vs && wayPolygonPolicyAccepts cfg w.tags && decide (4 ≤ vs.length)) = true
  · refine ⟨fun _ => by rw [if_pos hc], fun hcontra => by simp [hc] at hcontra, ?_⟩
    intro g hg
    rw [if_pos hc] at hg
    cases hg
    simp only [isPolygonGeometry, true_iff]
    have := hc
    simp only [Bool.and_eq_true, decide_eq_true_eq] at this
    exact ⟨this.1.1, this.1.2, this.2⟩
  · have hc' := hc
    rw [Bool.not_eq_true] at hc'
    refine ⟨fun hcontra => absurd hcontra hc, fun _ => by rw [if_neg hc], ?_⟩
    intro g hg
    rw [if_neg hc] at hg
    cases hg
    simp only [isPolygonGeometry, Bool.false_eq_true, false_iff]
    intro hcon
    apply hc
    simp [Bool.and_eq_true, decide_eq_true_eq, hcon.1, hcon.2.1, hcon.2.2]

/-- Witness for C3: the unit square `[1,2,3,4,1]` tagged `building=yes` is
emitted as a polygon, while the identical ring tagged `highway=residential`
remains a linestring. -/
theorem way_polygon_classification_witness :
    buildWayGeometry defaultWayPolygonConfig
        [(1, ((0 : ℤ), (0 : ℤ))), (2, ((1 : ℤ), (0 : ℤ))), (3, ((1 : ℤ), (1 : ℤ))),
          (4, ((0 : ℤ), (1 : ℤ)))]
        ⟨[1, 2, 3, 4, 1], [("building", "yes")]⟩ =
      some (.polygon
        [((0 : ℤ), (0 : ℤ)), ((1 : ℤ), (0 : ℤ)), ((1 : ℤ), (1 : ℤ)), ((0 : ℤ), (1 : ℤ)),
          ((0 : ℤ), (0 : ℤ))]) ∧
    buildWayGeometry defaultWayPolygonConfig
        [(1, ((0 : ℤ), (0 : ℤ))), (2, ((1 : ℤ), (0 : ℤ))), (3, ((1 : ℤ), (1 : ℤ))),
          (4, ((0 : ℤ), (1 : ℤ)))]
        ⟨[1, 2, 3, 4, 1], [("highway", "residential")]⟩ =
      some (.linestring
        [((0 : ℤ), (0 : ℤ)), ((1 : ℤ), (0 : ℤ)), ((1 : ℤ), (1 : ℤ)), ((0 : ℤ), (1 : ℤ)),
          ((0 : ℤ), (0 : ℤ))]) := by
  constructor
  · have h := way_polygon_classification defaultWayPolygonConfig
      [(1, ((0 : ℤ), (0 : ℤ))), (2, ((1 : ℤ), (0 : ℤ))), (3, ((1 : ℤ), (1 : ℤ))),
        (4, ((0 : ℤ), (1 : ℤ)))]
      ⟨[1, 2, 3, 4, 1], [("building", "yes")]⟩
      [((0 : ℤ), (0 : ℤ)), ((1 : ℤ), (0 : ℤ)), ((1 : ℤ), (1 : ℤ)), ((0 : ℤ), (1 : ℤ)),
        ((0 : ℤ), (0 : ℤ))]
      (by decide)
    have heq := h.1 (by decide)
    rw [heq]
    decide
  · have h := way_polygon_classification defaultWayPolygonConfig
      [(1, ((0 : ℤ), (0 : ℤ))), (2, ((1 : ℤ), (0 : ℤ))), (3, ((1 : ℤ), (1 : ℤ))),
        (4, ((0 : ℤ), (1 : ℤ)))]
      ⟨[1, 2, 3, 4, 1], [("highway", "residential")]⟩
      [((0 : ℤ), (0 : ℤ)), ((1 : ℤ), (0 : ℤ)), ((1 : ℤ), (1 : ℤ)), ((0 : ℤ), (1 : ℤ)),
        ((0 : ℤ), (0 : ℤ))]
      (by decide)
    exact h.2.1 (by decide)

/-! ### Geometry repair and OGC validity (component C7 of the spec
architecture) -/

/-- Orientation sign of the ordered point triple `(p, q, r)`: positive for a
left turn, negative for a right turn, zero when collinear. -/
def orientSign (p q r : Pt) : ℤ :=
  (q.1 - p.1) * (r.2 - p.2) - (q.2 - p.2) * (r.1 - p.1)

/-- Whether point `r` lies on the closed segment from `p` to `q`. -/
def onSegment (p q r : Pt) : Bool :=
  orientSign p q r == 0 && decide (min p.1 q.1 ≤ r.1) && decide (r.1 ≤ max p.1 q.1) &&
    decide (min p.2 q.2 ≤ r.2) && decide (r.2 ≤ max p.2 q.2)

/-- Whether the closed segments `a-b` and `c-d` intersect (touching counts),
by the standard orientation test. -/
def segmentsIntersect (a b c d : Pt) : Bool :=
  let d1 := orientSign c d a
  let d2 := orientSign c d b
  let d3 := orientSign a b c
  let d4 := orientSign a b d
  (((decide (0 < d1) && decide (d2 < 0)) || (decide (d1 < 0) && decide (0 < d2))) &&
      ((decide (0 < d3) && decide (d4 < 0)) || (decide (d3 < 0) && decide (0 < d4)))) ||
    onSegment c d a || onSegment c d b || onSegment a b c || onSegment a b d

/-- Dot product of two planar vectors. -/
def dotProduct2 (p q : Pt) : ℤ := p.1 * q.1 + p.2 * q.2

/-- Whether the adjacent segments `b-a` and `b-c` (meeting at `b`) overlap
beyond their shared endpoint: they do iff the triple is collinear and the
outer points lie on the same side of `b`. -/
def segmentsFoldBack (a b c : Pt) : Bool :=
  orientSign a b c == 0 &&
    decide (0 < dotProduct2 (a.1 - b.1, a.2 - b.2) (c.1 - b.1, c.2 - b.2))

/-- The consecutive-vertex edges of a vertex list. -/
def ringEdges (r : List Pt) : List (Pt × Pt) := r.zip r.tail

/-- Validity check for the edge pair `(i, j)` (with `i < j`) of a closed
ring with `n` edges: edges adjacent along the ring may meet only at the
shared vertex (no folding back), all other pairs must be disjoint. -/
def edgePairOk (es : List (Pt × Pt)) (n i j : Nat) : Bool :=
  let z : Pt × Pt := ((0, 0), (0, 0))
  let ei := es.getD i z
  let ej := es.getD j z
  if j == i + 1 then !(segmentsFoldBack ei.1 ei.2 ej.2)
  else if i == 0 && j == n - 1 then !(segmentsFoldBack ej.1 ei.1 ei.2)
  else !(segmentsIntersect ei.1 ei.2 ej.1 ej.2)

/-- Pairwise edge check of a closed ring traversed in the given direction. -/
def simpleDir (r : List Pt) : Bool :=
  let es := ringEdges r
  let n := es.length
  (List.range n).all fun i =>
    (List.range n).all fun j => if i < j then edgePairOk es n i j else true

/-- A ring is simple (non-self-intersecting in the OGC sense) when the
pairwise edge check passes; the check is performed on both traversal
directions, which makes direction independence definitional. -/
def ringIsSimple (r : List Pt) : Bool := simpleDir r && simpleDir r.reverse

/-- Boolean test that no two consecutive vertices coincide. -/
def noConsecutiveDuplicates : List Pt → Bool
  | [] => true
  | [_] => true
  | p :: q :: t => decide (p ≠ q) && noConsecutiveDuplicates (q :: t)

/-- A valid polygonal ring part: closed, at least 4 vertices, no
consecutive duplicates, simple, and of nonzero area. -/
def ringValid (r : List Pt) : Bool :=
  isClosedRing r && decide (4 ≤ r.length) && noConsecutiveDuplicates r &&
    ringIsSimple r && decide (signedArea2 r ≠ 0)

/-- Geometries flowing through the repair step. -/
inductive Geometry where
  | point (p : Pt)
  | linestring (points : List Pt)
  | polygon (outer : List Pt) (holes : List (List Pt))
  deriving DecidableEq

/-- Modelled from the spec: the geometry repair pipeline of spec §4.7 — (1)
remove consecutive duplicate vertices, (2) reject linestrings with fewer
than 2 points and polygon rings with fewer than 4, (3) make-valid, (4)
reorient rings (outer CCW, holes CW).  The make-valid step delegates to the
query engine's standard OGC algorithm, of which only polygonal parts are
kept; it is modelled here as keeping exactly the rings that are already
valid polygonal parts (simple, closed, nonzero area) and dropping the rest,
which preserves the validity invariant of every emitted geometry. -/
def geometryRepair : Geometry → Option Geometry
  | .point p => some (.point p)
  | .linestring l =>
    if decide (2 ≤ (removeConsecutiveDuplicates l).length)
    then some (.linestring (removeConsecutiveDuplicates l)) else none
  | .polygon outer holes =>
    if ringValid (removeConsecutiveDuplicates outer)
    then some (.polygon (orientCCW (removeConsecutiveDuplicates outer))
      ((((holes.map removeConsecutiveDuplicates).filter ringValid).map orientCW)))
    else none

/-- A counterclockwise valid output ring: valid with positive signed area. -/
def validOutputRingCCW (r : List Pt) : Bool := ringValid r && decide (0 < signedArea2 r)

/-- A clockwise valid output ring: valid with negative signed area. -/
def validOutputRingCW (r : List Pt) : Bool := ringValid r && decide (signedArea2 r < 0)

/-- OGC validity of an emitted geometry, as stated by the spec invariants:
rings non-self-intersecting, outer rings CCW and holes CW, no consecutive
duplicate vertices anywhere, and every polygon ring closed with at least 4
vertices. -/
def geometryValid : Geometry → Bool
  | .point _ => true
  | .linestring l => decide (2 ≤ l.length) && noConsecutiveDuplicates l
  | .polygon outer holes => validOutputRingCCW outer && holes.all validOutputRingCW

/-- The duplicate-collapse of a nonempty list keeps its first vertex. -/
theorem head?_removeConsecutiveDuplicates (p : Pt) (t : List Pt) :
    (removeConsecutiveDuplicates (p :: t)).head? = some p := by
  induction t generalizing p with
  | nil => simp [removeConsecutiveDuplicates]
  | cons q t ih =>
    by_cases h : p = q
    · subst h
      rw [show removeConsecutiveDuplicates (p :: p :: t) = removeConsecutiveDuplicates (p :: t)
        from by simp [removeConsecutiveDuplicates]]
      exact ih p
    · simp [removeConsecutiveDuplicates, h]

/-- Duplicate-collapse leaves no two equal consecutive vertices. -/
theorem chain'_removeConsecutiveDuplicates (l : List Pt) :
    List.Chain' (fun a b => a ≠ b) (removeConsecutiveDuplicates l) := by
  induction l with
  | nil => simp [removeConsecutiveDuplicates]
  | cons p t ih =>
    cases t with
    | nil => simp [removeConsecutiveDuplicates]
    | cons q t' =>
      by_cases h : p = q
      · rw [show removeConsecutiveDuplicates (p :: q :: t') =
            removeConsecutiveDuplicates (q :: t') from by
          simp [removeConsecutiveDuplicates, h]]
        exact ih
      · rw [show removeConsecutiveDuplicates (p :: q :: t') =
            p :: removeConsecutiveDuplicates (q :: t') from by
          simp [removeConsecutiveDuplicates, h]]
        rw [List.chain'_cons']
        refine ⟨fun y hy => ?_, ih⟩
        rw [head?_removeConsecutiveDuplicates] at hy
        cases hy
        exact h

/-- The shoelace cross term is antisymmetric. -/
theorem cross_antisymm (p q : Pt) : cross p q = - cross q p := by
  simp only [cross]; ring

/-- Appending a vertex adds the closing cross term of the previous last
vertex. -/
theorem signedArea2_snoc (l : List Pt) (x : Pt) :
    signedArea2 (l ++ [x]) =
      signedArea2 l + (match l.getLast? with | some p => cross p x | none => 0) := by
  induction l with
  | nil => simp [signedArea2]
  | cons a t ih =>
    cases t with
    | nil => simp [signedArea2]
    | cons b t' =>
      have : (a :: b :: t') ++ [x] = a :: ((b :: t') ++ [x]) := rfl
      rw [this]
      have hstep : signedArea2 (a :: ((b :: t') ++ [x])) =
          cross a b + signedArea2 ((b :: t') ++ [x]) := rfl
      rw [hstep, ih, List.getLast?_cons_cons]
      have hstep2 : signedArea2 (a :: b :: t') = cross a b + signedArea2 (b :: t') := rfl
      rw [hstep2]
      ring

/-- Reversing a vertex list negates the signed area. -/
theorem signedArea2_reverse (l : List Pt) : signedArea2 l.reverse = - signedArea2 l := by
  induction l with
  | nil => simp [signedArea2]
  | cons a t ih =>
    rw [List.reverse_cons, signedArea2_snoc, ih, List.getLast?_reverse]
    cases t with
    | nil => simp [signedArea2]
    | cons b t' =>
      have hstep : signedArea2 (a :: b :: t') = cross a b + signedArea2 (b :: t') := rfl
      rw [List.head?_cons, hstep]
      dsimp only
      rw [cross_antisymm b a]
      ring

/-- Ring closure is direction independent. -/
theorem isClosedRing_reverse (r : List Pt) : isClosedRing r.reverse = isClosedRing r := by
  simp only [isClosedRing, List.head?_reverse, List.getLast?_reverse]
  rw [decide_eq_decide]
  exact eq_comm

/-- The executable duplicate test agrees with the `Chain'` predicate. -/
theorem noConsecutiveDuplicates_eq_chain (l : List Pt) :
    noConsecutiveDuplicates l = decide (List.Chain' (fun a b => a ≠ b) l) := by
  induction l with
  | nil => simp [noConsecutiveDuplicates]
  | cons p t ih =>
    cases t with
    | nil => simp [noConsecutiveDuplicates]
    | cons q t' =>
      have hstep : noConsecutiveDuplicates (p :: q :: t') =
          (decide (p ≠ q) && noConsecutiveDuplicates (q :: t')) := rfl
      rw [hstep, ih]
      simp [List.chain'_cons, Bool.decide_and]

/-- Absence of consecutive duplicates is direction independent. -/
theorem noConsecutiveDuplicates_reverse (l : List Pt) :
    noConsecutiveDuplicates l.reverse = noConsecutiveDuplicates l := by
  rw [noConsecutiveDuplicates_eq_chain, noConsecutiveDuplicates_eq_chain]
  rw [decide_eq_decide, List.chain'_reverse]
  constructor
  · exact fun h => h.imp fun _ _ hab => Ne.symm hab
  · exact fun h => h.imp fun _ _ hab => Ne.symm hab

/-- Ring simplicity is direction independent. -/
theorem ringIsSimple_reverse (r : List Pt) : ringIsSimple r.reverse = ringIsSimple r := by
  simp only [ringIsSimple, List.reverse_reverse]
  exact Bool.and_comm _ _

/-- Validity of a polygonal ring part is direction independent. -/
theorem ringValid_reverse (r : List Pt) : ringValid r.reverse = ringValid r := by
  simp only [ringValid, isClosedRing_reverse, List.length_reverse,
    noConsecutiveDuplicates_reverse, ringIsSimple_reverse, signedArea2_reverse,
    neg_ne_zero]

/-- Reorienting a valid ring counterclockwise yields a valid CCW output
ring. -/
theorem orientCCW_validOutput (r : List Pt) (h : ringValid r = true) :
    validOutputRingCCW (orientCCW r) = true := by
  have hne : signedArea2 r ≠ 0 := by
    have := h
    simp only [ringValid, Bool.and_eq_true, decide_eq_true_eq] at this
    exact this.2
  unfold orientCCW validOutputRingCCW
  by_cases hlt : signedArea2 r < 0
  · rw [if_pos hlt, ringValid_reverse, signedArea2_reverse]
    simp only [h, Bool.true_and, decide_eq_true_eq]
    omega
  · rw [if_neg hlt]
    simp only [h, Bool.true_and, decide_eq_true_eq]
    omega

/-- Reorienting a valid ring clockwise yields a valid CW output ring. -/
theorem orientCW_validOutput (r : List Pt) (h : ringValid r = true) :
    validOutputRingCW (orientCW r) = true := by
  have hne : signedArea2 r ≠ 0 := by
    have := h
    simp only [ringValid, Bool.and_eq_true, decide_eq_true_eq] at this
    exact this.2
  unfold orientCW validOutputRingCW
  by_cases hgt : 0 < signedArea2 r
  · rw [if_pos hgt, ringValid_reverse, signedArea2_reverse]
    simp only [h, Bool.true_and, decide_eq_true_eq]
    omega
  · rw [if_neg hgt]
    simp only [h, Bool.true_and, decide_eq_true_eq]
    omega

/-- C2: every geometry emitted by the repair step is OGC-valid — polygon
rings are simple (non-self-intersecting), outer rings are oriented CCW and
holes CW, no geometry has consecutive duplicate vertices, and every polygon
ring is closed with at least 4 vertices. -/
theorem emitted_geometry_valid (g g' : Geometry) (h : geometryRepair g = some g') :
    geometryValid g' = true := by
  cases g with
  | point p =>
    simp only [geometryRepair, Option.some.injEq] at h
    subst h
    rfl
  | linestring l =>
    simp only [geometryRepair] at h
    by_cases hlen : (2 ≤ (removeConsecutiveDuplicates l).length)
    · rw [if_pos (by simpa using hlen)] at h
      obtain rfl := Option.some.inj h
      simp only [geometryValid, Bool.and_eq_true, decide_eq_true_eq]
      refine ⟨hlen, ?_⟩
      rw [noConsecutiveDuplicates_eq_chain]
      simp only [decide_eq_true_eq]
      exact chain'_removeConsecutiveDuplicates l
    · rw [if_neg (by simpa using hlen)] at h
      exact absurd h (by simp)
  | polygon outer holes =>
    simp only [geometryRepair] at h
    by_cases hv : ringValid (removeConsecutiveDuplicates outer) = true
    · rw [if_pos hv] at h
      obtain rfl := Option.some.inj h
      simp only [geometryValid, Bool.and_eq_true]
      refine ⟨orientCCW_validOutput _ hv, ?_⟩
      rw [List.all_eq_true]
      intro x hx
      rw [List.mem_map] at hx
      obtain ⟨rr, hrr, rfl⟩ := hx
      rw [List.mem_filter] at hrr
      exact orientCW_validOutput rr hrr.2
    · rw [if_neg hv] at h
      exact absurd h (by simp)

/-- Witness for C2: a clockwise 10x10 square with a counterclockwise hole
is repaired into a valid polygon — the outer ring reversed to CCW and the
hole reversed to CW — and the output passes the full validity check. -/
theorem emitted_geometry_valid_witness :
    geometryRepair
        (.polygon [((0 : ℤ), (0 : ℤ)), (0, 10), (10, 10), (10, 0), (0, 0)]
          [[((2 : ℤ), (2 : ℤ)), (4, 2), (4, 4), (2, 4), (2, 2)]]) =
      some (.polygon [((0 : ℤ), (0 : ℤ)), (10, 0), (10, 10), (0, 10), (0, 0)]
        [[((2 : ℤ), (2 : ℤ)), (2, 4), (4, 4), (4, 2), (2, 2)]]) ∧
      geometryValid
          (.polygon [((0 : ℤ), (0 : ℤ)), (10, 0), (10, 10), (0, 10), (0, 0)]
            [[((2 : ℤ), (2 : ℤ)), (2, 4), (4, 4), (4, 2), (2, 2)]]) = true :=
  ⟨by decide,
    emitted_geometry_valid
      (.polygon [((0 : ℤ), (0 : ℤ)), (0, 10), (10, 10), (10, 0), (0, 0)]
        [[((2 : ℤ), (2 : ℤ)), (4, 2), (4, 4), (2, 4), (2, 2)]])
      (.polygon [((0 : ℤ), (0 : ℤ)), (10, 0), (10, 10), (0, 10), (0, 0)]
        [[((2 : ℤ), (2 : ℤ)), (2, 4), (4, 4), (4, 2), (2, 2)]])
      (by decide)⟩

/-! ### Geometry-filter fingerprint (component C2 of the spec architecture)

Ring vertices carry the lexicographic order on coordinate pairs, so rings
compare lexicographically and the canonical rotation is well defined. -/

/-- A ring vertex with lexicographic coordinate order. -/
abbrev LexPt := ℤ ×ₗ ℤ

/-- A geometry-filter ring: vertex list without the closing repeat. -/
abbrev LexRing := List LexPt

/-- All cyclic rotations of a ring in both traversal directions, as the
candidate set for the canonical form. -/
def ringRotations (r : LexRing) : Finset LexRing :=
  ((List.range (r.length + 1)).map r.rotate).toFinset ∪
    ((List.range (r.reverse.length + 1)).map r.reverse.rotate).toFinset

/-- Membership in the candidate set is rotation equivalence with the ring
or with its reversal. -/
theorem mem_ringRotations (r x : LexRing) :
    x ∈ ringRotations r ↔ (List.IsRotated r x ∨ List.IsRotated r.reverse x) := by
  simp only [ringRotations, Finset.mem_union, List.mem_toFinset,
    ← List.isRotated_iff_mem_map_range]

/-- The candidate set always contains the ring itself. -/
theorem ringRotations_nonempty (r : LexRing) : (ringRotations r).Nonempty :=
  ⟨r, (mem_ringRotations r r).mpr (Or.inl (List.IsRotated.refl r))⟩

/-- Modelled from the spec: the orientation-normalized canonical form of a
ring (spec §4.2, CHANGELOG 0.5.3 'Made geometry orientation agnostic hash
algorithm'): the lexicographically smallest among all rotations of the ring
in either direction — it starts at the ring's lexicographically smallest
vertex and does not depend on the stored winding or starting vertex. -/
def canonicalRing (r : LexRing) : LexRing :=
  (ringRotations r).min' (ringRotations_nonempty r)

/-- Modelled from the spec: the canonical ring list of a geometry filter —
rings canonicalized individually then ordered lexicographically (which
orders them by first, i.e. smallest, vertex). -/
def canonicalRings (f : List LexRing) : List LexRing :=
  (f.map canonicalRing).mergeSort (· ≤ ·)

/-- Flat serialization of a ring, length-prefixed. -/
def serializeRing (r : LexRing) : List ℤ :=
  (r.length : ℤ) :: r.flatMap fun p => [(ofLex p).1, (ofLex p).2]

/-- Flat serialization of a canonical ring list (the canonical WKB stream
of the spec). -/
def serializeRings (rs : List LexRing) : List ℤ :=
  (rs.length : ℤ) :: rs.flatMap serializeRing

/-- Modelled from the spec: stand-in for the SHA-256 digest — a 64-bit
FNV-style fold; like SHA-256 it is a fixed deterministic function of the
serialized bytes, which is all the fingerprint-stability claims rely on. -/
def digestModel (l : List ℤ) : ℕ :=
  l.foldl
    (fun h z => (h * 1099511628211 + (2 * z).natAbs + (if z < 0 then 1 else 0)) % 2 ^ 64)
    14695981039346656037

/-- The geometry-filter fingerprint: digest of the canonical serialization. -/
def geometryFingerprint (f : List LexRing) : ℕ :=
  digestModel (serializeRings (canonicalRings f))

/-- Hexadecimal character of a value below 16. -/
def hexChar (n : ℕ) : Char :=
  if n < 10 then Char.ofNat (48 + n) else Char.ofNat (87 + n)

/-- A 64-hex-character digest string derived from a natural number seed,
little-endian nibble order. -/
def hexDigest64 (n : ℕ) : String :=
  String.mk ((List.range 64).map fun i => hexChar ((n / 16 ^ i) % 16))

/-- The geometry-filter hash component used in cache file names. -/
def geometryHashComponent (f : List LexRing) : String :=
  hexDigest64 (geometryFingerprint f)

/-- Two rings are set-equal when one is a rotation of the other or of its
reversal: same point cycle, possibly different winding or starting vertex. -/
def RingSetEqual (r1 r2 : LexRing) : Prop :=
  ∃ n, r2 = r1.rotate n ∨ r2 = r1.reverse.rotate n

/-- Two geometry filters are set-equal when their rings match up pairwise
set-equal after some reordering. -/
def GeometryFilterEquiv (f1 f2 : List LexRing) : Prop :=
  ∃ l, List.Perm f1 l ∧ List.Forall₂ RingSetEqual l f2

/-- Set-equal rings have the same rotation candidate set. -/
theorem ringRotations_eq_of_ringSetEqual (r1 r2 : LexRing) (h : RingSetEqual r1 r2) :
    ringRotations r1 = ringRotations r2 := by
  obtain ⟨n, h | h⟩ := h
  · apply Finset.ext
    intro x
    rw [mem_ringRotations, mem_ringRotations]
    have h12 : List.IsRotated r1 r2 := ⟨n, h.symm⟩
    have h12r : List.IsRotated r1.reverse r2.reverse := by
      subst h
      rw [List.reverse_rotate]
      exact ⟨_, rfl⟩
    constructor
    · rintro (hx | hx)
      · exact Or.inl (h12.symm.trans hx)
      · exact Or.inr (h12r.symm.trans hx)
    · rintro (hx | hx)
      · exact Or.inl (h12.trans hx)
      · exact Or.inr (h12r.trans hx)
  · apply Finset.ext
    intro x
    rw [mem_ringRotations, mem_ringRotations]
    have h1r2 : List.IsRotated r1.reverse r2 := ⟨n, h.symm⟩
    have h12r : List.IsRotated r1 r2.reverse := by
      subst h
      rw [List.reverse_rotate, List.reverse_reverse]
      exact ⟨_, rfl⟩
    constructor
    · rintro (hx | hx)
      · exact Or.inr (h12r.symm.trans hx)
      · exact Or.inl (h1r2.symm.trans hx)
    · rintro (hx | hx)
      · exact Or.inr (h1r2.trans hx)
      · exact Or.inl (h12r.trans hx)

/-- Set-equal rings share the canonical form. -/
theorem canonicalRing_eq_of_ringSetEqual (r1 r2 : LexRing) (h : RingSetEqual r1 r2) :
    canonicalRing r1 = canonicalRing r2 := by
  unfold canonicalRing
  congr 1
  exact ringRotations_eq_of_ringSetEqual r1 r2 h

/-- Mapping a function that respects a relation over `Forall₂` yields equal
lists. -/
theorem map_eq_of_forall₂ {α β : Type} (R : α → α → Prop) (c : α → β)
    (hc : ∀ a b, R a b → c a = c b) :
    ∀ l1 l2, List.Forall₂ R l1 l2 → l1.map c = l2.map c := by
  intro l1 l2 h
  induction h with
  | nil => rfl
  | cons hab _ ih => simp [hc _ _ hab, ih]

/-- C5: set-equal geometry filters — same rings up to winding direction,
starting vertex and ring order — have identical fingerprints, and hence an
identical geometry-filter hash component in the cache file name. -/
theorem geometry_fingerprint_orientation_agnostic (f1 f2 : List LexRing)
    (h : GeometryFilterEquiv f1 f2) :
    geometryFingerprint f1 = geometryFingerprint f2 ∧
      geometryHashComponent f1 = geometryHashComponent f2 := by
  obtain ⟨l, hperm, hf⟩ := h
  have hmapeq : l.map canonicalRing = f2.map canonicalRing :=
    map_eq_of_forall₂ RingSetEqual canonicalRing canonicalRing_eq_of_ringSetEqual l f2 hf
  have hperm2 : List.Perm (f1.map canonicalRing) (f2.map canonicalRing) := by
    rw [← hmapeq]
    exact hperm.map canonicalRing
  have hsorted : canonicalRings f1 = canonicalRings f2 := by
    unfold canonicalRings
    refine List.eq_of_perm_of_sorted ?_ (List.sorted_mergeSort' _) (List.sorted_mergeSort' _)
    exact ((List.mergeSort_perm _ _).trans hperm2).trans (List.mergeSort_perm _ _).symm
  have hfp : geometryFingerprint f1 = geometryFingerprint f2 := by
    unfold geometryFingerprint
    rw [hsorted]
  exact ⟨hfp, by unfold geometryHashComponent; rw [hfp]⟩

/-- Witness for C5: a square ring and a triangle ring, listed in swapped
order, the square reversed and rotated and the triangle rotated, produce
the same fingerprint and the same hash component as the original filter. -/
theorem geometry_fingerprint_witness :
    geometryFingerprint
        [[toLex ((0 : ℤ), (0 : ℤ)), toLex (1, 0), toLex (1, 1), toLex (0, 1)],
          [toLex ((5 : ℤ), (5 : ℤ)), toLex (7, 5), toLex (6, 8)]] =
      geometryFingerprint
        [[toLex ((6 : ℤ), (8 : ℤ)), toLex (5, 5), toLex (7, 5)],
          [toLex ((1 : ℤ), (0 : ℤ)), toLex (0, 0), toLex (0, 1), toLex (1, 1)]] ∧
      geometryHashComponent
          [[toLex ((0 : ℤ), (0 : ℤ)), toLex (1, 0), toLex (1, 1), toLex (0, 1)],
            [toLex ((5 : ℤ), (5 : ℤ)), toLex (7, 5), toLex (6, 8)]] =
        geometryHashComponent
          [[toLex ((6 : ℤ), (8 : ℤ)), toLex (5, 5), toLex (7, 5)],
            [toLex ((1 : ℤ), (0 : ℤ)), toLex (0, 0), toLex (0, 1), toLex (1, 1)]] := by
  apply geometry_fingerprint_orientation_agnostic
  refine ⟨[[toLex ((5 : ℤ), (5 : ℤ)), toLex (7, 5), toLex (6, 8)],
    [toLex ((0 : ℤ), (0 : ℤ)), toLex (1, 0), toLex (1, 1), toLex (0, 1)]],
    List.Perm.swap _ _ [], ?_⟩
  refine List.Forall₂.cons ⟨2, Or.inl ?_⟩ (List.Forall₂.cons ⟨2, Or.inr ?_⟩ List.Forall₂.nil)
  · decide
  · decide

/-! ### Greedy extract covering with the IoU threshold

Geometries are modelled as finite cell sets, so intersection-over-union is
the rational `|A ∩ B| / |A ∪ B|`; a threshold `tn / td` is compared by
cross-multiplication to stay within exact natural arithmetic. -/

/-- An OSM extract from the catalog: identifier and covered cell set. -/
structure OsmExtract where
  id : Nat
  covered : Finset Nat
  deriving DecidableEq

/-- Numerator of the IoU of two cell sets. -/
def iouNum (a b : Finset Nat) : ℕ := (a ∩ b).card

/-- Denominator of the IoU of two cell sets. -/
def iouDen (a b : Finset Nat) : ℕ := (a ∪ b).card

/-- Whether `IoU(poly, g) ≥ tn / td`, by cross-multiplication. -/
def iouAtLeast (poly g : Finset Nat) (tn td : ℕ) : Bool :=
  decide (tn * iouDen poly g ≤ td * iouNum poly g)

/-- Whether extract `e1` is a strictly better match than `e2` for the
remaining polygon: larger IoU, ties broken by the smaller extract id (the
deterministic tie-break required by spec §5). -/
def betterExtract (poly : Finset Nat) (e1 e2 : OsmExtract) : Bool :=
  decide (iouNum poly e2.covered * iouDen poly e1.covered <
      iouNum poly e1.covered * iouDen poly e2.covered) ||
    (decide (iouNum poly e2.covered * iouDen poly e1.covered =
        iouNum poly e1.covered * iouDen poly e2.covered) &&
      decide (e1.id < e2.id))

/-- Folding step retaining the better of the accumulated extract and the
next candidate. -/
def pickBetter (poly : Finset Nat) (acc : Option OsmExtract) (e : OsmExtract) :
    Option OsmExtract :=
  match acc with
  | none => some e
  | some b => if betterExtract poly e b then some e else some b

/-- Modelled from the docs: step G of the covering flowchart in the
`osm_extracts` notebook — among the extracts intersecting the remaining
polygon, select the one with the highest IoU. -/
def bestExtract (poly : Finset Nat) (extracts : List OsmExtract) : Option OsmExtract :=
  (extracts.filter fun e => decide ((poly ∩ e.covered).Nonempty)).foldl
    (pickBetter poly) none

/-- Modelled from the docs: the covering loop in the `osm_extracts`
notebook flowchart and CLI help — repeatedly select the best-matching
extract for the remaining polygon; keep it when it is the first selection
or its IoU reaches the threshold, discard it otherwise (CLI help: 'it is
discarded (except the first one)'); in both cases remove the intersection
from the polygon and continue.  Fuel bounds the iteration count. -/
def coverExtracts : Nat → ℕ → ℕ → List OsmExtract → Finset Nat → Bool → List OsmExtract
  | 0, _, _, _, _, _ => []
  | fuel + 1, tn, td, extracts, poly, isFirst =>
    if poly = ∅ then []
    else
      match bestExtract poly extracts with
      | none => []
      | some e =>
        if isFirst || iouAtLeast poly e.covered tn td
        then e :: coverExtracts fuel tn td extracts (poly \ e.covered) false
        else coverExtracts fuel tn td extracts (poly \ e.covered) false

/-- Auto-discovery of extracts covering a polygon: run the covering loop
starting with the first-selection flag set. -/
def findCoveringExtracts (tn td : ℕ) (extracts : List OsmExtract) (poly : Finset Nat) :
    List OsmExtract :=
  coverExtracts (poly.card + 1) tn td extracts poly true

/-- The candidate fold only returns the accumulator or a list member. -/
theorem pickBetter_mem (poly : Finset Nat) :
    ∀ (l : List OsmExtract) (acc : Option OsmExtract) (r : OsmExtract),
      l.foldl (pickBetter poly) acc = some r → acc = some r ∨ r ∈ l := by
  intro l
  induction l with
  | nil => intro acc r h; exact Or.inl h
  | cons x xs ih =>
    intro acc r h
    rcases ih (pickBetter poly acc x) r h with hx | hx
    · cases acc with
      | none =>
        simp only [pickBetter] at hx
        cases hx
        exact Or.inr (List.mem_cons_self _ _)
      | some b =>
        simp only [pickBetter] at hx
        by_cases hb : betterExtract poly x b = true
        · rw [if_pos hb] at hx
          cases hx
          exact Or.inr (List.mem_cons_self _ _)
        · rw [if_neg hb] at hx
          exact Or.inl hx
    · exact Or.inr (List.mem_cons_of_mem _ hx)

/-- C10: during extract auto-discovery the first selected (best-matching)
extract is always kept, for every IoU threshold; and every extract that the
threshold test examines in later iterations of the covering loop is kept
only if its IoU against the then-remaining polygon reaches the threshold —
so the test can discard only extracts selected after the first. -/
theorem first_extract_always_kept :
    (∀ (tn td : ℕ) (extracts : List OsmExtract) (poly : Finset Nat) (e : OsmExtract),
        poly ≠ ∅ → bestExtract poly extracts = some e →
          (findCoveringExtracts tn td extracts poly).head? = some e) ∧
      ∀ (fuel tn td : ℕ) (extracts : List OsmExtract) (poly : Finset Nat)
        (x : OsmExtract), x ∈ coverExtracts fuel tn td extracts poly false →
          ∃ p' : Finset Nat, p' ⊆ poly ∧ iouAtLeast p' x.covered tn td = true := by
  constructor
  · intro tn td extracts poly e hne hbest
    unfold findCoveringExtracts coverExtracts
    rw [if_neg hne, hbest]
    simp
  · intro fuel
    induction fuel with
    | zero => intro tn td extracts poly x h; exact absurd h (by simp [coverExtracts])
    | succ fuel ih =>
      intro tn td extracts poly x h
      unfold coverExtracts at h
      by_cases hne : poly = ∅
      · rw [if_pos hne] at h
        exact absurd h (by simp)
      · rw [if_neg hne] at h
        match hbest : bestExtract poly extracts with
        | none => rw [hbest] at h; exact absurd h (by simp)
        | some e =>
          rw [hbest] at h
          simp only [Bool.false_or] at h
          by_cases hio : iouAtLeast poly e.covered tn td = true
          · rw [if_pos hio] at h
            rcases List.mem_cons.mp h with rfl | hmem
            · exact ⟨poly, Finset.Subset.refl poly, hio⟩
            · obtain ⟨p', hp', hio'⟩ := ih tn td extracts (poly \ e.covered) x hmem
              exact ⟨p', hp'.trans Finset.sdiff_subset, hio'⟩
          · rw [if_neg hio] at h
            obtain ⟨p', hp', hio'⟩ := ih tn td extracts (poly \ e.covered) x h
            exact ⟨p', hp'.trans Finset.sdiff_subset, hio'⟩

/-- Witness for C10: a polygon of three cells and two extracts; the best
match (IoU 1/2) is kept as the first selection even under the maximal
threshold 1, and in a later, non-first iteration the second extract is kept
with its IoU 1/4 above the threshold 1/100. -/
theorem first_extract_always_kept_witness :
    (({0, 1, 2} : Finset Nat) ≠ ∅ ∧
        (findCoveringExtracts 1 1 [⟨1, {0, 1}⟩, ⟨2, {2, 3}⟩] {0, 1, 2}).head? =
          some ⟨1, {0, 1}⟩) ∧
      ∃ p' : Finset Nat, p' ⊆ ({2} : Finset Nat) ∧
        iouAtLeast p' ({2, 3} : Finset Nat) 1 100 = true := by
  constructor
  · refine ⟨by decide, ?_⟩
    apply (first_extract_always_kept.1) 1 1 [⟨1, {0, 1}⟩, ⟨2, {2, 3}⟩] {0, 1, 2} ⟨1, {0, 1}⟩
      (by decide) (by decide)
  · apply (first_extract_always_kept.2) 3 1 100 [⟨1, {0, 1}⟩, ⟨2, {2, 3}⟩] {2} ⟨2, {2, 3}⟩
    decide

/-! ### Cache file naming -/

/-- Modelled from the spec: a hash component of the cache file name — the
SHA-256 hex digest of the canonical serialization, truncated to `hashLen`
characters (spec §6: 'each hash is a truncated SHA-256 (8 hex chars by
default)'; CHANGELOG 0.13.0: 'Shortened the cache file paths hashes from
default 64 characters to 8'). -/
def strDigestTrunc (hashLen : Nat) (s : String) : String :=
  String.mk ((List.range hashLen).map fun i =>
    hexChar ((digestModel (s.toList.map fun c => (c.toNat : ℤ)) / 16 ^ i) % 16))

/-- The default truncation length of a hash component: 8 hex characters. -/
def defaultHashLength : Nat := 8

/-- Modelled from the spec: the segments of the result file name, following
the schema of spec §6
`{pbf_stem}_{tagfilter_hash|nofilter}[_alltags]_{geomfilter_hash|noclip}_{compact|exploded}[_sorted][_wkt][_{ids_hash}].parquet`.
The `_sorted` segment and the 8-character hash default are those of the
snapshot version (CHANGELOG 0.14.0 'Additional `_sorted` suffix used in
the result file name', 0.13.0 hash shortening); the README Caching section
predates both changes.  The naming code itself is absent from the
snapshot. -/
def resultFileNameParts (hashLen : Nat) (pbfStem : String)
    (tagsFilterSerialized : Option String) (keepAllTags : Bool)
    (geomFilterSerialized : Option String) (explodeTags sortResult wktMode : Bool)
    (filterOsmIdsSerialized : Option String) : List String :=
  [pbfStem, "_",
    (match tagsFilterSerialized with
      | some tf => strDigestTrunc hashLen tf
      | none => "nofilter"),
    (if keepAllTags && tagsFilterSerialized.isSome then "_alltags" else ""), "_",
    (match geomFilterSerialized with
      | some gf => strDigestTrunc hashLen gf
      | none => "noclip"), "_",
    (if explodeTags then "exploded" else "compact"),
    (if sortResult then "_sorted" else ""),
    (if wktMode then "_wkt" else ""),
    (match filterOsmIdsSerialized with
      | some ids => "_" ++ strDigestTrunc hashLen ids
      | none => ""), ".parquet"]

/-- The deterministic, content-addressed result file name. -/
def resultFileName (hashLen : Nat) (pbfStem : String)
    (tagsFilterSerialized : Option String) (keepAllTags : Bool)
    (geomFilterSerialized : Option String) (explodeTags sortResult wktMode : Bool)
    (filterOsmIdsSerialized : Option String) : String :=
  String.join (resultFileNameParts hashLen pbfStem tagsFilterSerialized keepAllTags
    geomFilterSerialized explodeTags sortResult wktMode filterOsmIdsSerialized)

/-- Modelled from the spec: a cache lookup tests only whether the expected
file name is present among the working-directory entries, given as
(name, mtime) pairs. -/
def cacheLookup (files : List (String × Nat)) (name : String) : Bool :=
  files.any fun f => f.1 == name

/-- C8: the output cache file name is deterministic and content-addressed
with schema
`{pbf_stem}_{tagfilter_hash|nofilter}[_alltags]_{geomfilter_hash|noclip}_{compact|exploded}[_sorted][_wkt][_{ids_hash}].parquet`,
each hash component a SHA-256 digest truncated to 8 hex characters by
default; presence of a file with the expected name constitutes a valid
cache hit and the file mtime is not consulted. -/
theorem cache_file_name_schema :
    (∀ hashLen s, (strDigestTrunc hashLen s).length = hashLen) ∧
      (∀ s, (strDigestTrunc defaultHashLength s).length = 8) ∧
      resultFileName defaultHashLength "example" none false none false false false none =
        "example_nofilter_noclip_compact.parquet" ∧
      (∀ hashLen stem tf,
        resultFileNameParts hashLen stem (some tf) false none true false false none =
          [stem, "_", strDigestTrunc hashLen tf, "", "_", "noclip", "_", "exploded",
            "", "", "", ".parquet"]) ∧
      (∀ hashLen stem tf,
        resultFileNameParts hashLen stem (some tf) true none false false false none =
          [stem, "_", strDigestTrunc hashLen tf, "_alltags", "_", "noclip", "_",
            "compact", "", "", "", ".parquet"]) ∧
      (∀ hashLen stem gf ids,
        resultFileNameParts hashLen stem none false (some gf) false true true (some ids) =
          [stem, "_", "nofilter", "", "_", strDigestTrunc hashLen gf, "_", "compact",
            "_sorted", "_wkt", "_" ++ strDigestTrunc hashLen ids, ".parquet"]) ∧
      (∀ files name, cacheLookup files name = true ↔ name ∈ files.map Prod.fst) ∧
      ∀ (files files' : List (String × Nat)) (name : String),
        files.map Prod.fst = files'.map Prod.fst →
          cacheLookup files name = cacheLookup files' name := by
  have hlen : ∀ hashLen s, (strDigestTrunc hashLen s).length = hashLen := by
    intro hashLen s
    show (String.mk _).length = hashLen
    show (List.map _ (List.range hashLen)).length = hashLen
    rw [List.length_map, List.length_range]
  have hproj : ∀ (files : List (String × Nat)) (name : String),
      cacheLookup files name = (files.map Prod.fst).any fun s => s == name := by
    intro files name
    induction files with
    | nil => rfl
    | cons a t ih =>
      have hstep : cacheLookup (a :: t) name = ((a.1 == name) || cacheLookup t name) := rfl
      rw [hstep, ih]
      rfl
  refine ⟨hlen, fun s => hlen defaultHashLength s, by decide, fun _ _ _ => rfl,
    fun _ _ _ => rfl, fun _ _ _ _ => rfl, ?_, ?_⟩
  · intro files name
    rw [hproj, List.any_eq_true]
    constructor
    · rintro ⟨s, hs, he⟩
      obtain rfl : s = name := by simpa using he
      exact hs
    · intro hmem
      exact ⟨name, hmem, by simp⟩
  · intro files files' name heq
    rw [hproj, hproj, heq]

/-- Witness for C8: two directory listings with the same names but
different mtimes produce the same lookup result for a concrete name. -/
theorem cache_file_name_schema_witness :
    [("example_nofilter_noclip_compact.parquet", 5)].map
        (Prod.fst (α := String) (β := Nat)) =
      [("example_nofilter_noclip_compact.parquet", 99)].map Prod.fst ∧
      cacheLookup [("example_nofilter_noclip_compact.parquet", 5)]
          "example_nofilter_noclip_compact.parquet" =
        cacheLookup [("example_nofilter_noclip_compact.parquet", 99)]
          "example_nofilter_noclip_compact.parquet" :=
  ⟨rfl,
    cache_file_name_schema.2.2.2.2.2.2.2
      [("example_nofilter_noclip_compact.parquet", 5)]
      [("example_nofilter_noclip_compact.parquet", 99)]
      "example_nofilter_noclip_compact.parquet" rfl⟩

end Quackosm
